import Mathlib

/-!
Verification development for the railway_bot media-download service.

The definitions below are a shallow embedding of the task orchestration core
in src/main.py: filename sanitization and construction, the video/audio format
classifiers, the format-selector construction, the download worker state
machine (registry updates), and the retention sweeper cycle.  Python values
are modelled with Nat/Int/String/Option; dynamic "truthiness" tests are made
explicit.  External collaborators (the extraction library, HTTP, the
filesystem) are modelled by environments describing the events they deliver,
exactly at the call boundaries the source code uses.
-/

namespace RailwayBot

/-- Python truthiness of an optional string: None and the empty string are falsy. -/
def strTruthy : Option String → Bool
  | none => false
  | some s => s ≠ ""

/-- Python truthiness of an optional integer: None and 0 are falsy. -/
def intTruthy : Option Int → Bool
  | none => false
  | some n => n ≠ 0

/-- Python `a or b` on optional integers: if `a` is truthy keep it, else `b`. -/
def pyOrOptInt (a b : Option Int) : Option Int :=
  match a with
  | some n => if n ≠ 0 then some n else b
  | none => b

/-- Whitespace characters removed by Python str.strip (ASCII range). -/
def pyWs (c : Char) : Bool :=
  c == ' ' || c == '\t' || c == '\n' || c == '\r' || c == '\x0b' || c == '\x0c'

/-- Strip leading and trailing whitespace from a character list (Python str.strip). -/
def pyStripChars (l : List Char) : List Char :=
  List.rdropWhile pyWs (List.dropWhile pyWs l)

/-- The character set removed by src/main.py sanitize_filename's regex. -/
def forbiddenChar (c : Char) : Bool :=
  ['\\', '/', '*', '?', ':', '"', '<', '>', '|', '#', '%'].contains c

/-- src/main.py sanitize_filename: delete every forbidden character, then strip whitespace. -/
def sanitize_filename (s : String) : String :=
  ⟨pyStripChars (s.data.filter (fun c => !forbiddenChar c))⟩

/-- Value of a nonempty digit string, base 10. -/
def digitsToNat (ds : List Char) : Nat :=
  ds.foldl (fun a c => a * 10 + (c.toNat - 48)) 0

/-- Python int(str): strip whitespace, optional sign, then decimal digits; None on failure. -/
def pyIntParse (s : String) : Option Int :=
  let cs := pyStripChars s.data
  let core : Int × List Char :=
    match cs with
    | '-' :: r => (-1, r)
    | '+' :: r => (1, r)
    | r => (1, r)
  if core.2.isEmpty then none
  else if core.2.all Char.isDigit then some (core.1 * (digitsToNat core.2 : Int))
  else none

/-- A dynamically typed scalar as found in extractor metadata: an int or a string. -/
inductive PyVal
  | int (n : Int)
  | str (s : String)
deriving DecidableEq, Repr

/-- Python int(x) applied to a dynamic scalar; None when it raises. -/
def pyCoerceInt : PyVal → Option Int
  | .int n => some n
  | .str s => pyIntParse s

/-- Python format spec {n:02d}: zero-pad the decimal form to a total width of 2. -/
def fmt02 (n : Int) : String :=
  let s := toString n
  if s.length < 2 then "0" ++ s else s

/-- Uppercase an ASCII string (Python str.upper on the model tags used here). -/
def pyUpper (s : String) : String :=
  s.map Char.toUpper

/-- Extracted metadata fields used by get_formatted_filename in src/main.py. -/
structure Info where
  title : Option String := none
  series : Option String := none
  season_number : Option PyVal := none
  episode_number : Option PyVal := none
deriving DecidableEq, Repr

/-- The per-model display-tag table from get_formatted_filename. -/
def modelMapL : List (String × String) :=
  [("ytdownload", "YouTube"), ("hotstar", "Hotstar"), ("zee5", "ZEE5"),
   ("sonyliv", "SonyLIV"), ("instagram", "Instagram"), ("twitter", "Twitter"),
   ("reddit", "Reddit"), ("spotify", "Spotify")]

/-- Display tag of a model: mapped name, else the upper-cased model tag. -/
def modelTag (model : String) : String :=
  (modelMapL.lookup model).getD (pyUpper model)

/-- src/main.py get_formatted_filename, translated branch for branch. -/
def get_formatted_filename (info : Info) (model : String) : String :=
  let title := info.title.getD "Unknown"
  let base_name :=
    if strTruthy info.series && info.season_number.isSome && info.episode_number.isSome then
      match pyCoerceInt (info.season_number.getD (.int 0)),
            pyCoerceInt (info.episode_number.getD (.int 0)) with
      | some sn, some ep =>
          info.series.getD "" ++ " - S" ++ fmt02 sn ++ "E" ++ fmt02 ep ++ " - " ++ title
      | _, _ => title
    else title
  sanitize_filename (base_name ++ " [" ++ modelTag model ++ "] WEB-DL")

/-- A raw stream-variant descriptor as delivered by the extraction library. -/
structure StreamVariant where
  format_id : String
  vcodec : Option String := none
  acodec : Option String := none
  width : Option Int := none
  height : Option Int := none
  rows : Option Int := none
  resolution : Option String := none
  ext : Option String := none
  fps : Option Int := none
  tbr : Option Int := none
  abr : Option Int := none
  language : Option String := none
  format_note : Option String := none
deriving DecidableEq, Repr

/-- First video-detection branch of filter_formats: a truthy vcodec other than none. -/
def vbranch1 (f : StreamVariant) : Bool :=
  match f.vcodec with
  | some v => v ≠ "" && v ≠ "none"
  | none => false

/-- Second video-detection branch: a truthy width or height. -/
def vbranch2 (f : StreamVariant) : Bool :=
  intTruthy f.width || intTruthy f.height

/-- Whether the container extension is one of the known video-capable ones. -/
def extInVideoContainers (f : StreamVariant) : Bool :=
  match f.ext with
  | some e => ["mp4", "mkv", "webm", "ts"].contains e
  | none => false

/-- Third video-detection branch: video container and an acodec field not equal to the
string none; an absent acodec passes this test exactly as Python None does. -/
def vbranch3 (f : StreamVariant) : Bool :=
  extInVideoContainers f && f.acodec != some "none"

/-- has_video in filter_formats: any of the three branches. -/
def hasVideo (f : StreamVariant) : Bool :=
  vbranch1 f || vbranch2 f || vbranch3 f

/-- A variant is classified as video via the third branch when the first two reject it. -/
def classifiedViaThirdBranch (f : StreamVariant) : Bool :=
  !vbranch1 f && !vbranch2 f && vbranch3 f

/-- Height recovered from a WxH resolution string, 0 on any failure. -/
def resolutionHeight (f : StreamVariant) : Int :=
  match f.resolution with
  | some res =>
      if res ≠ "" && res.data.contains 'x' then
        match (res.splitOn "x").get? 1 with
        | some part => (pyIntParse part).getD 0
        | none => 0
      else 0
  | none => 0

/-- Display height of a variant: height or rows, else the parsed resolution string, else 0. -/
def effHeight (f : StreamVariant) : Int :=
  match pyOrOptInt f.height f.rows with
  | some h => if h ≠ 0 then h else resolutionHeight f
  | none => resolutionHeight f

/-- tbr with the code's `or 0` default. -/
def effTbr (f : StreamVariant) : Int :=
  f.tbr.getD 0

/-- ext with the code's empty-string default. -/
def extOf (f : StreamVariant) : String :=
  f.ext.getD ""

/-- format_note with the code's `or empty` default. -/
def noteOf (f : StreamVariant) : String :=
  match f.format_note with
  | some s => s
  | none => ""

/-- First label part: the height tag. -/
def heightPartV (f : StreamVariant) : String :=
  if 0 < effHeight f then toString (effHeight f) ++ "p" else "Unknown Resolution"

/-- Parenthesised extension label part, omitted when the extension is empty. -/
def extPartsV (f : StreamVariant) : List String :=
  if extOf f ≠ "" then ["(" ++ extOf f ++ ")"] else []

/-- Frame-rate label part, omitted when fps is absent or 0 (Python falsy). -/
def fpsPartsV (f : StreamVariant) : List String :=
  match f.fps with
  | some n => if n ≠ 0 then [toString n ++ "fps"] else []
  | none => []

/-- Bitrate label part, omitted when tbr is absent or 0 (Python falsy). -/
def tbrPartsV (f : StreamVariant) : List String :=
  if effTbr f ≠ 0 then [toString (effTbr f) ++ "kbps"] else []

/-- Whether the acodec field is truthy and distinct from the string none. -/
def acodecTruthyNotNone (f : StreamVariant) : Bool :=
  match f.acodec with
  | some a => a ≠ "" && a ≠ "none"
  | none => false

/-- Muxed-or-video-only tag in the video label. -/
def muxPartV (f : StreamVariant) : String :=
  if acodecTruthyNotNone f then "[Video+Audio]" else "[Video Only]"

/-- Upstream note label part, omitted when empty. -/
def notePartsV (f : StreamVariant) : List String :=
  if noteOf f ≠ "" then [noteOf f] else []

/-- The full video label: parts joined by a dash separator. -/
def videoLabel (f : StreamVariant) : String :=
  String.intercalate " - "
    (heightPartV f :: (extPartsV f ++ fpsPartsV f ++ tbrPartsV f ++ muxPartV f :: notePartsV f))

/-- A display-ready video option produced by filter_formats. -/
structure FormatOption where
  id : String
  resolution : String
  label : String
  ext : String
  tbr : Int
  height : Int
deriving DecidableEq, Repr

/-- The video option built for one accepted variant. -/
def mkFormatOption (f : StreamVariant) : FormatOption :=
  { id := f.format_id
    resolution := if 0 < effHeight f then toString (effHeight f) ++ "p" else "Unknown"
    label := videoLabel f
    ext := extOf f
    tbr := effTbr f
    height := effHeight f }

/-- The selection loop of filter_formats: keep video variants, dedupe by format_id. -/
def buildVideo : List StreamVariant → List String → List FormatOption
  | [], _ => []
  | f :: rest, seen =>
      if hasVideo f then
        if seen.contains f.format_id then buildVideo rest seen
        else mkFormatOption f :: buildVideo rest (f.format_id :: seen)
      else buildVideo rest seen

/-- Insert x after every element y with r y x true (stable insertion step). -/
def insOrd (r : α → α → Bool) (x : α) : List α → List α
  | [] => [x]
  | y :: ys => if r y x then y :: insOrd r x ys else x :: y :: ys

/-- Stable sort placing a before b whenever r a b holds; models Python sorted. -/
def sortByOrd (r : α → α → Bool) (l : List α) : List α :=
  l.foldl (fun acc x => insOrd r x acc) []

/-- Descending order on (height, tbr) used by filter_formats' final sort. -/
def vidOrdB (a b : FormatOption) : Bool :=
  decide (b.height < a.height) || (a.height == b.height && decide (b.tbr ≤ a.tbr))

/-- src/main.py filter_formats: accepted video variants, deduped, sorted by
descending (height, tbr). -/
def filter_formats (fs : List StreamVariant) : List FormatOption :=
  sortByOrd vidOrdB (buildVideo fs [])

/-- Language display-name table of filter_audio. -/
def langMapL : List (String × String) :=
  [("hin", "Hindi"), ("mal", "Malayalam"), ("tam", "Tamil"), ("tel", "Telugu"),
   ("kan", "Kannada"), ("ben", "Bengali"), ("mar", "Marathi"), ("guj", "Gujarati"),
   ("pan", "Punjabi"), ("eng", "English"), ("jap", "Japanese")]

/-- Raw language with the code's `or und` default. -/
def rawLangOf (f : StreamVariant) : String :=
  match f.language with
  | some l => if l ≠ "" then l else "und"
  | none => "und"

/-- Display language: mapped name, raw code when unmapped, Unknown for und. -/
def displayLangOf (f : StreamVariant) : String :=
  let d := (langMapL.lookup (rawLangOf f)).getD (rawLangOf f)
  if d = "und" then "Unknown" else d

/-- abr with the code's `or 0` default. -/
def abrOf (f : StreamVariant) : Int :=
  f.abr.getD 0

/-- The audio label: always embeds the bitrate, appends the note when present. -/
def audioLabel (f : StreamVariant) : String :=
  displayLangOf f ++ " (" ++ toString (abrOf f) ++ "kbps - " ++ extOf f ++ ")" ++
    (if noteOf f ≠ "" then " [" ++ noteOf f ++ "]" else "")

/-- A display-ready audio option produced by filter_audio. -/
structure AudioOption where
  id : String
  language : String
  bitrate : Int
  ext : String
  label : String
deriving DecidableEq, Repr

/-- The audio option built for one accepted variant. -/
def mkAudioOption (f : StreamVariant) : AudioOption :=
  { id := f.format_id
    language := displayLangOf f
    bitrate := abrOf f
    ext := extOf f
    label := audioLabel f }

/-- The strict audio filter: acodec (defaulted to none) must differ from none and
vcodec (defaulted to none) must equal none. -/
def audioKeep (f : StreamVariant) : Bool :=
  !(f.acodec.getD "none" == "none") && (f.vcodec.getD "none" == "none")

/-- The selection loop of filter_audio: audio-only variants, deduped by format_id. -/
def buildAudio : List StreamVariant → List String → List AudioOption
  | [], _ => []
  | f :: rest, seen =>
      if audioKeep f then
        if seen.contains f.format_id then buildAudio rest seen
        else mkAudioOption f :: buildAudio rest (f.format_id :: seen)
      else buildAudio rest seen

/-- Ascending order on (language, descending bitrate) used by filter_audio's sort. -/
def audOrdB (a b : AudioOption) : Bool :=
  decide (a.language < b.language) || (a.language == b.language && decide (b.bitrate ≤ a.bitrate))

/-- src/main.py filter_audio: audio-only variants, deduped, sorted by language then
descending bitrate. -/
def filter_audio (fs : List StreamVariant) : List AudioOption :=
  sortByOrd audOrdB (buildAudio fs [])

/-- The strict format-expression construction of single_downloader_core in src/main.py:
the requested selector string together with the user-facing merge message. -/
def buildReqFormat (format_id audio_id : Option String) : String × String :=
  if strTruthy format_id && strTruthy audio_id then
    let fv := format_id.getD ""
    let av := audio_id.getD ""
    (fv ++ "+" ++ av, "Merging Video " ++ fv ++ " + Audio " ++ av)
  else if strTruthy format_id then
    let fv := format_id.getD ""
    (fv, "Downloading Format " ++ fv)
  else if strTruthy audio_id then
    let av := audio_id.getD ""
    (av, "Audio Only: " ++ av)
  else ("best", "Best Available")

/-- Task status values stored in the registry. -/
inductive Status
  | starting
  | downloading
  | finished
  | error
deriving DecidableEq, Repr

/-- Rank of a status in the documented state machine. -/
def statusRank : Status → Nat
  | .starting => 0
  | .downloading => 1
  | .finished => 2
  | .error => 2

/-- One update_task payload: the fields merged into the task's registry state.
Every update issued by the worker carries a status. -/
structure Update where
  status : Status
  message : Option String := none
  progress : Option Int := none
  filename : Option String := none
  speed : Option String := none
  eta : Option String := none
  download_url : Option String := none
deriving DecidableEq, Repr

/-- Whether an update carries a terminal status. -/
def isTerminalUpd (u : Update) : Bool :=
  u.status == .finished || u.status == .error

/-- The registry state of one task (the dict stored in TASKS_STORE). -/
structure TaskData where
  status : Status
  progress : Option Int := none
  message : Option String := none
  filename : Option String := none
  speed : Option String := none
  eta : Option String := none
  download_url : Option String := none
  model : Option String := none
deriving DecidableEq, Repr

/-- The registry entry created by start_download on submission. -/
def initTaskData (model : String) : TaskData :=
  { status := .starting, progress := some 0, model := some model }

/-- Dict merge of an update into the stored state (update_task in src/main.py). -/
def applyUpdate (d : TaskData) (u : Update) : TaskData :=
  { d with
    status := u.status
    progress := u.progress <|> d.progress
    message := u.message <|> d.message
    filename := u.filename <|> d.filename
    speed := u.speed <|> d.speed
    eta := u.eta <|> d.eta
    download_url := u.download_url <|> d.download_url }

/-- Whether the cancellation flag reads true at poll point number i, where the
flag is first observed set at poll cancelAt (none: never set). -/
def cancelledAt (cancelAt : Option Nat) (i : Nat) : Bool :=
  match cancelAt with
  | some n => n ≤ i
  | none => false

/-- One progress-hook invocation from the extraction library, with the telemetry
strings already parsed (clean_ansi and the percent parse are abstracted as
delivering the resulting number). -/
structure HookEvent where
  isDownloading : Bool
  percent : Int := 0
  speed : String := ""
  eta : String := ""
deriving DecidableEq, Repr

/-- Environment of one general-media download run: what the extraction library
delivered at each call boundary used by the code. -/
structure YEnv where
  metadata : Except String Info
  cancelAt : Option Nat := none
  hookEvents : List HookEvent := []
  downloadError : Option String := none
  hits : List String := []
deriving Repr

/-- The update issued by one downloading hook invocation. -/
def hookUpd (mergeMsg : String) (ev : HookEvent) : Update :=
  { status := .downloading, progress := some ev.percent,
    message := some ("Downloading (" ++ mergeMsg ++ ")"),
    speed := some ev.speed, eta := some ev.eta }

/-- The progress hook of single_downloader_core, applied to each delivered event in
order: a cancellation check first, then an update for downloading events. Poll
points are numbered from startIdx. -/
def runHooks (cancelAt : Option Nat) (mergeMsg : String) :
    Nat → List HookEvent → List Update × Except String Unit
  | _, [] => ([], .ok ())
  | idx, ev :: rest =>
      if cancelledAt cancelAt idx then ([], .error "Cancelled")
      else
        let us : List Update := if ev.isDownloading then [hookUpd mergeMsg ev] else []
        let rec' := runHooks cancelAt mergeMsg (idx + 1) rest
        (us ++ rec'.1, rec'.2)

/-- The metadata-fetch update at the start of the general-media branch. -/
def ytMetaUpd (mergeMsg : String) : Update :=
  { status := .starting, message := some ("Fetching Metadata... (" ++ mergeMsg ++ ")") }

/-- The update announcing the computed filename before materialization. -/
def ytStartUpd (fname : String) : Update :=
  { status := .downloading, message := some ("Starting: " ++ fname), filename := some fname }

/-- The general-media branch of single_downloader_core: metadata fetch, filename
computation, materialization with hooks, then the glob for the produced file.
Poll point 0 is the post-metadata cancellation check; hook i is poll i+1. -/
def ytCore (model : String) (format_id audio_id : Option String) (e : YEnv) :
    List Update × Except String (Option String) :=
  let mergeMsg := (buildReqFormat format_id audio_id).2
  match e.metadata with
  | .error msg => ([ytMetaUpd mergeMsg], .error ("Metadata Error: " ++ msg))
  | .ok info =>
      if cancelledAt e.cancelAt 0 then ([ytMetaUpd mergeMsg], .error "Cancelled")
      else
        let fname := get_formatted_filename info model
        let hooks := runHooks e.cancelAt mergeMsg 1 e.hookEvents
        match hooks.2 with
        | .error msg => (ytMetaUpd mergeMsg :: (ytStartUpd fname :: hooks.1), .error msg)
        | .ok _ =>
            match e.downloadError with
            | some msg => (ytMetaUpd mergeMsg :: (ytStartUpd fname :: hooks.1), .error msg)
            | none => (ytMetaUpd mergeMsg :: (ytStartUpd fname :: hooks.1), .ok e.hits.head?)

/-- The fields extract_spotify_data recovers from the lookup API JSON (the
shape probing itself is the external collaborator's payload). -/
structure SpApi where
  link : Option String := none
  title : String := "Spotify Track"
  artist : String := ""
deriving DecidableEq, Repr

/-- Environment of one music-lookup download run. cacheFresh is the cache entry
when one exists and its timestamp is within the TTL. -/
structure SEnv where
  cacheFresh : Option (String × String × String) := none
  apiResult : Except String SpApi := .error "no api"
  cancelAt : Option Nat := none
  downloadReqError : Option String := none
  contentLength : Option Nat := none
  chunks : List Nat := []
deriving Repr

/-- The update announcing the music-lookup API call. -/
def spFetchUpd : Update :=
  { status := .starting, message := some "Fetching from Spotify API..." }

/-- The API fetch step: a starting update, then the extracted fields or the
request error. -/
def spFetch (e : SEnv) : List Update × Except String (Option String × String × String) :=
  ([spFetchUpd],
   match e.apiResult with
   | .error msg => .error msg
   | .ok d => .ok (d.link, d.title, d.artist))

/-- Link resolution: consult the fresh cache entry, fall back to the API when the
cached link is absent or falsy. -/
def spResolve (e : SEnv) : List Update × Except String (Option String × String × String) :=
  match e.cacheFresh with
  | some (l, t, a) => if l ≠ "" then ([], .ok (some l, t, a)) else spFetch e
  | none => spFetch e

/-- Python truthiness filter on an optional string link. -/
def truthyLink : Option String → Option String
  | some l => if l = "" then none else some l
  | none => none

/-- The per-chunk progress update of the direct download. -/
def chunkUpd (done : Nat) : Update :=
  { status := .downloading, progress := some (done : Int),
    message := some ("Downloading " ++ toString done ++ "%") }

/-- The chunked-read loop of the direct download: each iteration polls the
cancellation flag, then writes a nonempty chunk and reports floor(100*dl/total).
A zero total raises division by zero exactly as Python does. -/
def chunkLoopSp (cancelAt : Option Nat) (total : Nat) :
    Nat → Nat → List Nat → List Update × Except String Unit
  | _, _, [] => ([], .ok ())
  | idx, dl, c :: rest =>
      if cancelledAt cancelAt idx then ([], .error "Cancelled")
      else if c ≠ 0 then
        if total = 0 then ([], .error "division by zero")
        else
          let dl' := dl + c
          let done := 100 * dl' / total
          let rec' := chunkLoopSp cancelAt total (idx + 1) dl' rest
          (chunkUpd done :: rec'.1, rec'.2)
      else chunkLoopSp cancelAt total (idx + 1) dl rest

/-- The update announcing that the music-lookup link is being processed. -/
def spProcessingUpd : Update :=
  { status := .starting, message := some "Processing Spotify Link..." }

/-- The update announcing the direct download of the resolved link. -/
def spDownloadingUpd (fname : String) : Update :=
  { status := .downloading, message := some ("Downloading: " ++ fname ++ ".mp3"),
    filename := some fname }

/-- The music-lookup branch of single_downloader_core. Every exception is
re-raised wrapped in the Spotify API Error message. Poll point 0 is the
pre-download cancellation check; chunk iteration i is poll i+1. -/
def spotifyCore (e : SEnv) : List Update × Except String (Option String) :=
  let res := spResolve e
  match res.2 with
  | .error msg => (spProcessingUpd :: res.1, .error ("Spotify API Error: " ++ msg))
  | .ok (rawLink, t0, a0) =>
      let title := if a0 ≠ "" then a0 ++ " - " ++ t0 else t0
      match truthyLink rawLink with
      | none =>
          (spProcessingUpd :: res.1,
           .error "Spotify API Error: API did not return a valid link.")
      | some _ =>
          let fname := sanitize_filename (title ++ " [Spotify] WEB-DL")
          if cancelledAt e.cancelAt 0 then
            (spProcessingUpd :: res.1, .error "Spotify API Error: Cancelled")
          else
            match e.downloadReqError with
            | some msg =>
                (spProcessingUpd :: (res.1 ++ [spDownloadingUpd fname]),
                 .error ("Spotify API Error: " ++ msg))
            | none =>
                let path := "transient/" ++ fname ++ ".mp3"
                match e.contentLength with
                | none =>
                    (spProcessingUpd :: (res.1 ++ [spDownloadingUpd fname]), .ok (some path))
                | some total =>
                    let loop := chunkLoopSp e.cancelAt total 1 0 e.chunks
                    match loop.2 with
                    | .error msg =>
                        (spProcessingUpd :: (res.1 ++ (spDownloadingUpd fname :: loop.1)),
                         .error ("Spotify API Error: " ++ msg))
                    | .ok _ =>
                        (spProcessingUpd :: (res.1 ++ (spDownloadingUpd fname :: loop.1)),
                         .ok (some path))

/-- Combined per-run environment for both branches of single_downloader_core. -/
structure CoreEnv where
  sp : SEnv := {}
  yt : YEnv := { metadata := .error "" }
deriving Repr

/-- src/main.py single_downloader_core: dispatch on the model. -/
def singleDownloaderCore (model : String) (format_id audio_id : Option String)
    (env : CoreEnv) : List Update × Except String (Option String) :=
  if model = "spotify" then spotifyCore env.sp else ytCore model format_id audio_id env.yt

/-- Path component after the final slash (os.path.basename for these paths). -/
def pyBasename (p : String) : String :=
  ⟨(p.data.reverse.takeWhile (fun c => c ≠ '/')).reverse⟩

/-- os.path.splitext on a basename: split at the final dot unless every earlier
character is a dot. -/
def pySplitext (name : String) : String × String :=
  let rev := name.data.reverse
  let extRev := rev.takeWhile (fun c => c ≠ '.')
  if extRev.length = rev.length then (name, "")
  else
    let stemRev := rev.drop (extRev.length + 1)
    if stemRev.all (fun c => c = '.') then (name, "")
    else (⟨stemRev.reverse⟩, ⟨('.' :: extRev).reverse⟩)

/-- Uppercase hexadecimal digit. -/
def hexDigit (n : Nat) : Char :=
  if n < 10 then Char.ofNat (48 + n) else Char.ofNat (55 + n)

/-- UTF-8 bytes of a code point, as naturals. -/
def utf8Bytes (n : Nat) : List Nat :=
  if n < 128 then [n]
  else if n < 2048 then [192 + n / 64, 128 + n % 64]
  else if n < 65536 then [224 + n / 4096, 128 + n / 64 % 64, 128 + n % 64]
  else [240 + n / 262144, 128 + n / 4096 % 64, 128 + n / 64 % 64, 128 + n % 64]

/-- urllib.parse.quote with the default safe set: keep unreserved characters and
the slash, percent-encode the UTF-8 bytes of everything else. -/
def urlQuote (s : String) : String :=
  ⟨s.data.foldr (fun c acc =>
    if c.isAlphanum || c == '_' || c == '.' || c == '-' || c == '~' || c == '/' then c :: acc
    else (utf8Bytes c.toNat).foldr
      (fun b acc2 => '%' :: hexDigit (b / 16) :: hexDigit (b % 16) :: acc2) acc) []⟩

/-- Environment of the artifact-move step in worker_single: whether the public
directory already holds the computed name, the integer timestamp used for the
collision suffix, and whether the move itself raised. -/
structure MoveEnv where
  collision : Bool := false
  nowTs : Int := 0
  moveError : Option String := none
deriving DecidableEq, Repr

/-- Final public filename: the staging basename, timestamp-suffixed on collision. -/
def finishedName (menv : MoveEnv) (path : String) : String :=
  let filename := pyBasename path
  if menv.collision then
    let se := pySplitext filename
    se.1 ++ "_" ++ toString menv.nowTs ++ se.2
  else filename

/-- The terminal error update published by worker_single. -/
def errorUpd (msg : String) : Update :=
  { status := .error, message := some msg }

/-- The terminal finished update published by worker_single. -/
def finishedUpd (finalName : String) : Update :=
  { status := .finished, message := some "Ready", progress := some 100,
    download_url := some ("/file/" ++ urlQuote finalName), filename := some finalName }

/-- src/main.py worker_single: run the core, then publish exactly one terminal
update — finished with progress 100 and a download link, or error with the
exception message (a falsy path reports the file-not-found error). -/
def workerSingle (model : String) (format_id audio_id : Option String)
    (env : CoreEnv) (menv : MoveEnv) : List Update :=
  let core := singleDownloaderCore model format_id audio_id env
  match core.2 with
  | .error e => core.1 ++ [errorUpd e]
  | .ok p =>
      match p with
      | some path =>
          if path ≠ "" then
            match menv.moveError with
            | some m => core.1 ++ [errorUpd m]
            | none => core.1 ++ [finishedUpd (finishedName menv path)]
          else core.1 ++ [errorUpd "File not found on server after download."]
      | none => core.1 ++ [errorUpd "File not found on server after download."]

/-- The registry state after the worker run: all updates merged into the entry
created at submission. -/
def finalTaskData (model : String) (format_id audio_id : Option String)
    (env : CoreEnv) (menv : MoveEnv) : TaskData :=
  (workerSingle model format_id audio_id env menv).foldl applyUpdate (initTaskData model)

/-- One directory entry seen by the retention sweeper, with the behavior of the
stat and delete calls on it. -/
structure FsFile where
  name : String
  isFile : Bool := true
  mtime : Int := 0
  statRaises : Bool := false
  removeRaises : Bool := false
deriving DecidableEq, Repr

/-- The sweep cutoff of cleanup_old_files: now minus one hour in seconds. -/
def hourCutoff (now : Int) : Int := now - 60 * 60

/-- One cycle of cleanup_old_files over the listed entries (both folders
concatenated in iteration order): delete regular files older than the cutoff;
the first exception aborts the remainder of the cycle (the try/except wraps the
whole scan and the loop only resumes at the next 15-minute tick). Returns the
deleted names and whether the cycle completed without an exception. -/
def runCleanupCycle (now : Int) : List FsFile → List String × Bool
  | [] => ([], true)
  | f :: rest =>
      if f.isFile then
        if f.statRaises then ([], false)
        else if f.mtime < hourCutoff now then
          if f.removeRaises then ([], false)
          else
            let r := runCleanupCycle now rest
            (f.name :: r.1, r.2)
        else runCleanupCycle now rest
      else runCleanupCycle now rest

/-- Whether the music-lookup run resolves a truthy download link (cache or API). -/
def spObtainedB (e : SEnv) : Bool :=
  match (spResolve e).2 with
  | .ok (l, _, _) => (truthyLink l).isSome
  | .error _ => false

/-- Whether the cancellation flag is first observed set at a poll point this
music-lookup run actually reaches: poll 0 before the download, or a chunk
iteration of a well-formed streamed body. -/
def spCancelReachedB (e : SEnv) : Bool :=
  spObtainedB e &&
    match e.cancelAt with
    | some 0 => true
    | some (n + 1) =>
        e.downloadReqError.isNone &&
        (match e.contentLength with
         | some t => decide (0 < t) && decide (n + 1 ≤ e.chunks.length)
         | none => false)
    | none => false

/-- Whether the cancellation flag is first observed set at a poll point this
general-media run actually reaches: poll 0 after a successful metadata fetch,
or one of the delivered hook invocations. -/
def ytCancelReachedB (e : YEnv) : Bool :=
  (match e.metadata with | .ok _ => true | .error _ => false) &&
    (match e.cancelAt with
     | some n => decide (n ≤ e.hookEvents.length)
     | none => false)

/-- Whether the cancellation flag is set before a poll point the worker reaches. -/
def cancelPollReachedB (model : String) (env : CoreEnv) : Bool :=
  if model = "spotify" then spCancelReachedB env.sp else ytCancelReachedB env.yt

/-- A concrete general-media run whose cancellation flag is set before the first
hook invocation. -/
def c7EnvW : CoreEnv :=
  { yt := { metadata := .ok {}, cancelAt := some 1,
            hookEvents := [{ isDownloading := true }] } }

/-- Whether the sweeper deletes this entry: a regular file older than the 1-hour cutoff. -/
def eligibleFile (now : Int) (f : FsFile) : Bool :=
  f.isFile && decide (f.mtime < hourCutoff now)

/-- Whether processing this entry raises inside the cycle. -/
def fileRaises (now : Int) (f : FsFile) : Bool :=
  f.isFile && (f.statRaises || (decide (f.mtime < hourCutoff now) && f.removeRaises))

/-- A concrete audio-only variant used to exercise the audio-classifier theorems. -/
def sampleAudio9 : StreamVariant :=
  { format_id := "a9", acodec := some "aac", vcodec := some "none", ext := some "m4a",
    abr := some 128, language := some "hin" }

/-- A concrete audio-only variant for the amended C4 audio part. -/
def sampleAudio4 : StreamVariant :=
  { format_id := "a4", acodec := some "opus", vcodec := some "none", ext := some "webm" }

/-- A concrete codec-less muxed-container variant for the amended C4 video part. -/
def sampleVideo4 : StreamVariant :=
  { format_id := "f4", ext := some "ts" }

/-- A concrete audio-only variant with no abr field. -/
def sampleAudioNoAbr : StreamVariant :=
  { format_id := "a1", acodec := some "mp3", vcodec := some "none", ext := some "m4a" }

/-- A concrete video variant with no tbr and no fps field. -/
def sampleVideoNoRates : StreamVariant :=
  { format_id := "v5", vcodec := some "avc1", height := some 720, ext := some "mp4" }

/-! Theorems. -/

theorem dropWhile_rdropWhile_self {p : Char → Bool} {y : List Char}
    (hy : List.dropWhile p y = y) :
    List.dropWhile p (List.rdropWhile p y) = List.rdropWhile p y := by
  rw [List.dropWhile_eq_self_iff]
  intro hl
  have hpre := List.rdropWhile_prefix p y
  have hylen : 0 < y.length := lt_of_lt_of_le hl hpre.length_le
  have h0 : (List.rdropWhile p y).get ⟨0, hl⟩ = y.get ⟨0, hylen⟩ := by
    simpa using hpre.getElem hl
  rw [h0]
  exact List.dropWhile_eq_self_iff.mp hy hylen

theorem pyStripChars_idem (l : List Char) :
    pyStripChars (pyStripChars l) = pyStripChars l := by
  unfold pyStripChars
  rw [dropWhile_rdropWhile_self (List.dropWhile_idempotent pyWs l),
    List.rdropWhile_idempotent]

theorem mem_of_mem_pyStripChars {c : Char} {l : List Char} (h : c ∈ pyStripChars l) : c ∈ l :=
  (List.dropWhile_suffix pyWs).subset (( List.rdropWhile_prefix pyWs _).subset h)

/-- C10: filename sanitization is idempotent — applying sanitize_filename to an
already-sanitized string returns it unchanged. -/
theorem c10_sanitize_filename_idempotent (s : String) :
    sanitize_filename (sanitize_filename s) = sanitize_filename s := by
  show (⟨pyStripChars (List.filter _ (pyStripChars (s.data.filter fun c => !forbiddenChar c)))⟩ : String)
      = ⟨pyStripChars (s.data.filter fun c => !forbiddenChar c)⟩
  rw [List.filter_eq_self.mpr fun a ha =>
    List.of_mem_filter (p := fun c => !forbiddenChar c) (mem_of_mem_pyStripChars ha)]
  rw [pyStripChars_idem]

/-- C8: the computed filename is the sanitization of base followed by the bracketed
display tag and the WEB-DL suffix, where base is the series/season/episode form
exactly when series is present (truthy) and season and episode are present and
integer-coercible, and the plain title otherwise; and sanitization removes the
forbidden characters as in the spec's example. -/
theorem c8_filename_construction :
    (∀ (info : Info) (model : String),
      get_formatted_filename info model =
        sanitize_filename
          ((if strTruthy info.series &&
               (info.season_number.bind pyCoerceInt).isSome &&
               (info.episode_number.bind pyCoerceInt).isSome then
              info.series.getD "" ++ " - S"
                ++ fmt02 ((info.season_number.bind pyCoerceInt).getD 0)
                ++ "E" ++ fmt02 ((info.episode_number.bind pyCoerceInt).getD 0)
                ++ " - " ++ info.title.getD "Unknown"
            else info.title.getD "Unknown")
           ++ " [" ++ modelTag model ++ "] WEB-DL"))
    ∧ sanitize_filename "My:Clip?<1>" = "MyClip1"
    ∧ get_formatted_filename
        { title := some "Episode One", series := some "Show",
          season_number := some (.int 1), episode_number := some (.int 3) } "hotstar"
        = "Show - S01E03 - Episode One [Hotstar] WEB-DL" := by
  refine ⟨fun info model => ?_, by decide, by decide⟩
  unfold get_formatted_filename
  rcases hser : strTruthy info.series with _ | _
  · simp [hser]
  · rcases hsn : info.season_number with _ | sv
    · simp [hser, hsn]
    · rcases hep : info.episode_number with _ | ev
      · simp [hser, hsn, hep]
      · rcases hcs : pyCoerceInt sv with _ | n
        · simp [hser, hsn, hep, hcs]
        · rcases hce : pyCoerceInt ev with _ | m
          · simp [hser, hsn, hep, hcs, hce]
          · simp [hser, hsn, hep, hcs, hce]

/-- C3: the general-media format-selection policy — both selectors give their exact
plus-joined combination, a lone video selector is requested standalone with no
best-audio fallback appended, a lone audio selector is requested standalone, and
no selector requests best. -/
theorem c3_format_selection (fv av : String) :
    (fv ≠ "" → av ≠ "" → (buildReqFormat (some fv) (some av)).1 = fv ++ "+" ++ av)
    ∧ (fv ≠ "" → (buildReqFormat (some fv) none).1 = fv)
    ∧ (av ≠ "" → (buildReqFormat none (some av)).1 = av)
    ∧ (buildReqFormat none none).1 = "best" := by
  refine ⟨fun hf ha => by simp [buildReqFormat, strTruthy, hf, ha],
         fun hf => by simp [buildReqFormat, strTruthy, hf],
         fun ha => by simp [buildReqFormat, strTruthy, ha], rfl⟩

theorem c3_format_selection_witness :
    (buildReqFormat (some "137") (some "140")).1 = "137+140"
    ∧ (buildReqFormat (some "137") none).1 = "137"
    ∧ (buildReqFormat none (some "140")).1 = "140"
    ∧ (buildReqFormat none none).1 = "best" :=
  ⟨(c3_format_selection "137" "140").1 (by decide) (by decide),
   (c3_format_selection "137" "140").2.1 (by decide),
   (c3_format_selection "137" "140").2.2.1 (by decide),
   (c3_format_selection "137" "140").2.2.2⟩

/-- C6 as stated is false on the code: the try/except of cleanup_old_files wraps the
whole cycle, so a stat exception on the first file aborts the cycle and the second
file — a regular file far older than the 1-hour cutoff — is not deleted. -/
theorem c6_counterexample :
    runCleanupCycle 10000
        [{ name := "a.mp4", statRaises := true }, { name := "b.mp4", mtime := 0 }]
      = ([], false)
    ∧ eligibleFile 10000 { name := "b.mp4", mtime := 0 } = true := by decide

/-- C6 amended: in an exception-free cycle exactly the regular files older than the
1-hour cutoff are removed; but an exception from a single file's stat or delete
aborts the remainder of that cycle — no later entry is examined or deleted until
the next 15-minute tick. -/
theorem c6_amended_sweeper (now : Int) :
    (∀ files : List FsFile, (∀ f ∈ files, fileRaises now f = false) →
      runCleanupCycle now files = ((files.filter (eligibleFile now)).map (·.name), true))
    ∧ (∀ (l1 l2 : List FsFile) (bad : FsFile), (∀ f ∈ l1, fileRaises now f = false) →
      fileRaises now bad = true →
      runCleanupCycle now (l1 ++ bad :: l2)
        = ((l1.filter (eligibleFile now)).map (·.name), false)) := by
  have cons_eq : ∀ (f : FsFile) (tail : List FsFile),
      runCleanupCycle now (f :: tail)
        = (if f.isFile then
            if f.statRaises then ([], false)
            else if f.mtime < hourCutoff now then
              if f.removeRaises then ([], false)
              else (f.name :: (runCleanupCycle now tail).1, (runCleanupCycle now tail).2)
            else runCleanupCycle now tail
          else runCleanupCycle now tail) := fun _ _ => rfl
  have step : ∀ (f : FsFile) (tail : List FsFile), fileRaises now f = false →
      runCleanupCycle now (f :: tail)
        = ((if eligibleFile now f then [f.name] else []) ++ (runCleanupCycle now tail).1,
           (runCleanupCycle now tail).2) := by
    intro f tail hf
    rw [cons_eq]
    by_cases hisf : f.isFile = true
    · by_cases hm : f.mtime < hourCutoff now
      · have hsr : f.statRaises = false ∧ f.removeRaises = false := by
          simpa [fileRaises, hisf, hm] using hf
        simp [hisf, hm, hsr.1, hsr.2, eligibleFile]
      · have hsr : f.statRaises = false := by
          simpa [fileRaises, hisf, hm] using hf
        simp [hisf, hm, hsr, eligibleFile]
    · simp [hisf, eligibleFile]
  constructor
  · intro files h
    induction files with
    | nil => rfl
    | cons f rest ih =>
        have hrest := ih fun g hg => h g (List.mem_cons_of_mem f hg)
        rw [step f rest (h f (List.mem_cons_self f rest)), hrest, List.filter_cons]
        by_cases he : eligibleFile now f = true
        · simp [he]
        · simp [he]
  · intro l1 l2 bad h1 hbad
    induction l1 with
    | nil =>
        simp only [List.nil_append, List.filter_nil, List.map_nil]
        have hisf : bad.isFile = true := by
          rcases hb : bad.isFile with _ | _
          · rw [fileRaises, hb] at hbad; simp at hbad
          · rfl
        by_cases hstat : bad.statRaises = true
        · unfold runCleanupCycle; simp [hisf, hstat]
        · have h2 : bad.mtime < hourCutoff now ∧ bad.removeRaises = true := by
            simpa [fileRaises, hisf, hstat] using hbad
          unfold runCleanupCycle
          simp [hisf, hstat, h2.1, h2.2]
    | cons f rest ih =>
        have hrest := ih fun g hg => h1 g (List.mem_cons_of_mem f hg)
        rw [List.cons_append, step f (rest ++ bad :: l2) (h1 f (List.mem_cons_self f rest)),
          hrest, List.filter_cons]
        by_cases he : eligibleFile now f = true
        · simp [he]
        · simp [he]

theorem c6_amended_sweeper_witness :
    runCleanupCycle 10000
        [{ name := "old.mp4", mtime := 0 }, { name := "new.mp4", mtime := 9700 }]
      = (["old.mp4"], true) := by
  have h := (c6_amended_sweeper 10000).1
    [{ name := "old.mp4", mtime := 0 }, { name := "new.mp4", mtime := 9700 }]
    (by decide)
  simpa using h

theorem insOrd_perm (r : α → α → Bool) (x : α) (l : List α) :
    List.Perm (insOrd r x l) (x :: l) := by
  induction l with
  | nil => exact List.Perm.refl _
  | cons y ys ih =>
      by_cases h : r y x = true
      · rw [insOrd, if_pos h]
        exact (ih.cons y).trans (List.Perm.swap x y ys)
      · rw [insOrd, if_neg h]

theorem sortByOrd_perm_aux (r : α → α → Bool) :
    ∀ (l acc : List α),
      List.Perm (List.foldl (fun acc x => insOrd r x acc) acc l) (acc ++ l) := by
  intro l
  induction l with
  | nil => intro acc; simp
  | cons x xs ih =>
      intro acc
      refine ((ih (insOrd r x acc)).trans ?_)
      refine ((insOrd_perm r x acc).append_right xs).trans ?_
      exact List.perm_middle.symm

theorem sortByOrd_perm (r : α → α → Bool) (l : List α) : List.Perm (sortByOrd r l) l :=
  sortByOrd_perm_aux r l []

theorem insOrd_pairwise (r : α → α → Bool)
    (total : ∀ a b, r a b = true ∨ r b a = true)
    (tr : ∀ a b c, r a b = true → r b c = true → r a c = true)
    (x : α) (l : List α) (h : l.Pairwise (fun a b => r a b = true)) :
    (insOrd r x l).Pairwise (fun a b => r a b = true) := by
  induction l with
  | nil => simp [insOrd]
  | cons y ys ih =>
      rcases List.pairwise_cons.mp h with ⟨hy, hys⟩
      by_cases hr : r y x = true
      · rw [insOrd, if_pos hr]
        refine List.pairwise_cons.mpr ⟨?_, ih hys⟩
        intro z hz
        have hz' : z = x ∨ z ∈ ys := by
          simpa using (insOrd_perm r x ys).mem_iff.mp hz
        rcases hz' with rfl | hzys
        · exact hr
        · exact hy z hzys
      · rw [insOrd, if_neg hr]
        have hxy : r x y = true := (total x y).resolve_right hr
        refine List.pairwise_cons.mpr ⟨?_, h⟩
        intro z hz
        rcases List.mem_cons.mp hz with rfl | hzys
        · exact hxy
        · exact tr x y z hxy (hy z hzys)

theorem sortByOrd_pairwise (r : α → α → Bool)
    (total : ∀ a b, r a b = true ∨ r b a = true)
    (tr : ∀ a b c, r a b = true → r b c = true → r a c = true)
    (l : List α) : (sortByOrd r l).Pairwise (fun a b => r a b = true) := by
  have aux : ∀ (l acc : List α), acc.Pairwise (fun a b => r a b = true) →
      (List.foldl (fun acc x => insOrd r x acc) acc l).Pairwise (fun a b => r a b = true) := by
    intro l
    induction l with
    | nil => intro acc hacc; exact hacc
    | cons x xs ih => intro acc hacc; exact ih _ (insOrd_pairwise r total tr x acc hacc)
  exact aux l [] (List.Pairwise.nil)

theorem vidOrdB_total (a b : FormatOption) : vidOrdB a b = true ∨ vidOrdB b a = true := by
  simp only [vidOrdB, Bool.or_eq_true, Bool.and_eq_true, decide_eq_true_eq, beq_iff_eq]
  omega

theorem vidOrdB_trans (a b c : FormatOption)
    (hab : vidOrdB a b = true) (hbc : vidOrdB b c = true) : vidOrdB a c = true := by
  simp only [vidOrdB, Bool.or_eq_true, Bool.and_eq_true, decide_eq_true_eq, beq_iff_eq] at *
  omega

theorem buildVideo_ids_nodup : ∀ (fs : List StreamVariant) (seen : List String),
    ((buildVideo fs seen).map (·.id)).Nodup
    ∧ ∀ o ∈ buildVideo fs seen, (o.id ∈ seen → False) := by
  intro fs
  induction fs with
  | nil => intro seen; simp [buildVideo]
  | cons f rest ih =>
      intro seen
      rw [buildVideo]
      by_cases hv : hasVideo f = true
      · rw [if_pos hv]
        by_cases hc : seen.contains f.format_id = true
        · rw [if_pos hc]; exact ih seen
        · rw [if_neg hc]
          have hnotin : f.format_id ∉ seen := by
            simpa using hc
          obtain ⟨ihn, ihs⟩ := ih (f.format_id :: seen)
          constructor
          · rw [List.map_cons]
            refine List.nodup_cons.mpr ⟨?_, ihn⟩
            intro hmem
            obtain ⟨o, ho, hoid⟩ := List.mem_map.mp hmem
            exact ihs o ho (by rw [hoid]; exact List.mem_cons_self _ _)
          · intro o ho hid
            rcases List.mem_cons.mp ho with rfl | ho'
            · exact hnotin hid
            · exact ihs o ho' (List.mem_cons_of_mem _ hid)
      · rw [if_neg hv]; exact ih seen

/-- C2: the video classifier never returns two options sharing an identifier, and its
output is sorted non-increasing in the lexicographic order on (height, bitrate). -/
theorem c2_video_classifier_nodup_sorted (fs : List StreamVariant) :
    ((filter_formats fs).map (·.id)).Nodup
    ∧ (filter_formats fs).Pairwise
        (fun a b => b.height < a.height ∨ (b.height = a.height ∧ b.tbr ≤ a.tbr)) := by
  constructor
  · have h1 := (buildVideo_ids_nodup fs []).1
    have hperm : List.Perm (filter_formats fs) (buildVideo fs []) := sortByOrd_perm _ _
    exact (hperm.map (·.id)).nodup_iff.mpr h1
  · have hp := sortByOrd_pairwise vidOrdB vidOrdB_total vidOrdB_trans (buildVideo fs [])
    refine hp.imp ?_
    intro a b hab
    simp only [vidOrdB, Bool.or_eq_true, Bool.and_eq_true, decide_eq_true_eq,
      beq_iff_eq] at hab
    rcases hab with h | ⟨h1, h2⟩
    · exact .inl h
    · exact .inr ⟨h1.symm, h2⟩

theorem buildAudio_source : ∀ (fs : List StreamVariant) (seen : List String)
    (o : AudioOption), o ∈ buildAudio fs seen →
    ∃ f, f ∈ fs ∧ o = mkAudioOption f ∧ audioKeep f = true := by
  intro fs
  induction fs with
  | nil => intro seen o h; simp [buildAudio] at h
  | cons f rest ih =>
      intro seen o h
      rw [buildAudio] at h
      by_cases hk : audioKeep f = true
      · rw [if_pos hk] at h
        by_cases hc : seen.contains f.format_id = true
        · rw [if_pos hc] at h
          obtain ⟨g, hg, hrest⟩ := ih seen o h
          exact ⟨g, List.mem_cons_of_mem f hg, hrest⟩
        · rw [if_neg hc] at h
          rcases List.mem_cons.mp h with rfl | h'
          · exact ⟨f, List.mem_cons_self f rest, rfl, hk⟩
          · obtain ⟨g, hg, hrest⟩ := ih _ o h'
            exact ⟨g, List.mem_cons_of_mem f hg, hrest⟩
      · rw [if_neg hk] at h
        obtain ⟨g, hg, hrest⟩ := ih seen o h
        exact ⟨g, List.mem_cons_of_mem f hg, hrest⟩

theorem filter_audio_source {fs : List StreamVariant} {o : AudioOption}
    (h : o ∈ filter_audio fs) :
    ∃ f, f ∈ fs ∧ o = mkAudioOption f ∧ audioKeep f = true :=
  buildAudio_source fs [] o ((sortByOrd_perm audOrdB _).subset h)

/-- C9: every option the audio classifier returns is generated from a variant whose
vcodec is absent or is the explicit string none — a variant declaring a real video
codec is never included. -/
theorem c9_audio_never_video_codec (fs : List StreamVariant) (o : AudioOption)
    (h : o ∈ filter_audio fs) :
    ∃ f, f ∈ fs ∧ o = mkAudioOption f ∧ (f.vcodec = none ∨ f.vcodec = some "none") := by
  obtain ⟨f, hf, ho, hk⟩ := filter_audio_source h
  refine ⟨f, hf, ho, ?_⟩
  have hv : f.vcodec.getD "none" = "none" := by
    have h2 : ¬(f.acodec.getD "none" = "none") ∧ f.vcodec.getD "none" = "none" := by
      simpa [audioKeep] using hk
    exact h2.2
  rcases hvc : f.vcodec with _ | v
  · exact .inl rfl
  · rw [hvc] at hv
    exact .inr (by simp at hv; rw [hv])

theorem c9_audio_never_video_codec_witness :
    ∃ f, f ∈ [sampleAudio9] ∧ mkAudioOption sampleAudio9 = mkAudioOption f
      ∧ (f.vcodec = none ∨ f.vcodec = some "none") :=
  c9_audio_never_video_codec [sampleAudio9] (mkAudioOption sampleAudio9) (by decide)

/-- C4 as stated is false on the code: a variant with neither codec field whose
container is mp4 is accepted by the third video-detection branch, because the
branch's test acodec different from the string none is passed by a missing
acodec, and the variant appears in the video classifier's output. -/
theorem c4_counterexample :
    StreamVariant.acodec { format_id := "f7", ext := some "mp4" } = none
    ∧ StreamVariant.vcodec { format_id := "f7", ext := some "mp4" } = none
    ∧ classifiedViaThirdBranch { format_id := "f7", ext := some "mp4" } = true
    ∧ (filter_formats [{ format_id := "f7", ext := some "mp4" }]).map (·.id) = ["f7"] := by
  decide

/-- C4 amended: a variant with neither codec field is never included in the audio
classifier's output (every audio option comes from a variant with a declared,
non-none acodec); but such a variant is classified as video via the third branch
exactly when its container extension is video-capable and the width/height branch
rejects it, since a missing audio codec passes the not-none test. -/
theorem c4_amended_missing_codecs (fs : List StreamVariant) (o : AudioOption)
    (f : StreamVariant) :
    (o ∈ filter_audio fs →
      ∃ g, g ∈ fs ∧ o = mkAudioOption g ∧ g.acodec ≠ none ∧ g.acodec ≠ some "none")
    ∧ (f.acodec = none → f.vcodec = none →
      classifiedViaThirdBranch f = (!vbranch2 f && extInVideoContainers f)) := by
  constructor
  · intro h
    obtain ⟨g, hg, ho, hk⟩ := filter_audio_source h
    have ha : ¬(g.acodec.getD "none" = "none") := by
      have h2 : ¬(g.acodec.getD "none" = "none") ∧ g.vcodec.getD "none" = "none" := by
        simpa [audioKeep] using hk
      exact h2.1
    refine ⟨g, hg, ho, ?_, ?_⟩
    · intro hnone; rw [hnone] at ha; exact ha rfl
    · intro hsome; rw [hsome] at ha; exact ha rfl
  · intro hac hvc
    have hne : ((none : Option String) != some "none") = true := rfl
    simp [classifiedViaThirdBranch, vbranch1, vbranch3, hac, hvc, hne]

theorem c4_amended_missing_codecs_witness :
    (∃ g, g ∈ [sampleAudio4] ∧ mkAudioOption sampleAudio4 = mkAudioOption g
        ∧ g.acodec ≠ none ∧ g.acodec ≠ some "none")
    ∧ classifiedViaThirdBranch sampleVideo4
        = (!vbranch2 sampleVideo4 && extInVideoContainers sampleVideo4) :=
  ⟨(c4_amended_missing_codecs [sampleAudio4] (mkAudioOption sampleAudio4) sampleVideo4).1
      (by decide),
   (c4_amended_missing_codecs [] (mkAudioOption sampleAudio4) sampleVideo4).2
      (by decide) (by decide)⟩

theorem data_infix_of_eq_append {s a b c : String} (h : s = a ++ b ++ c) :
    b.data <:+: s.data :=
  ⟨a.data, c.data, by rw [h]; simp⟩

/-- C5 as stated is false on the code: the audio label always embeds the bitrate
fragment, so a variant whose abr is missing gets 0kbps printed in its label rather
than having the fragment omitted. -/
theorem c5_counterexample :
    sampleAudioNoAbr.abr = none
    ∧ (filter_audio [sampleAudioNoAbr]).map (·.label) = ["Unknown (0kbps - m4a)"]
    ∧ "0kbps".data <:+: "Unknown (0kbps - m4a)".data := by decide

/-- C5 amended: the video labels do omit the kbps fragment when tbr is missing or 0
and the fps fragment when fps is missing or 0; the audio labels instead always
embed a kbps fragment, printing a 0 value when abr is missing. -/
theorem c5_amended_label_fragments (f : StreamVariant) :
    (effTbr f = 0 →
      (mkFormatOption f).label = String.intercalate " - "
        (heightPartV f :: (extPartsV f ++ fpsPartsV f ++ muxPartV f :: notePartsV f)))
    ∧ (f.fps = none ∨ f.fps = some 0 →
      (mkFormatOption f).label = String.intercalate " - "
        (heightPartV f :: (extPartsV f ++ tbrPartsV f ++ muxPartV f :: notePartsV f)))
    ∧ "kbps".data <:+: (mkAudioOption f).label.data
    ∧ (f.abr = none → "(0kbps - ".data <:+: (mkAudioOption f).label.data) := by
  refine ⟨fun ht => ?_, fun hf => ?_, ?_, fun ha => ?_⟩
  · simp [mkFormatOption, videoLabel, tbrPartsV, ht]
  · rcases hf with hf | hf <;> simp [mkFormatOption, videoLabel, fpsPartsV, hf]
  · apply data_infix_of_eq_append
      (a := displayLangOf f ++ " (" ++ toString (abrOf f))
      (c := " - " ++ extOf f ++ ")" ++ (if noteOf f ≠ "" then " [" ++ noteOf f ++ "]" else ""))
    show audioLabel f = _
    rw [audioLabel]
    have hx : ("kbps - " : String) = "kbps" ++ " - " := rfl
    apply String.ext
    simp [hx]
  · apply data_infix_of_eq_append
      (a := displayLangOf f ++ " ")
      (c := extOf f ++ ")" ++ (if noteOf f ≠ "" then " [" ++ noteOf f ++ "]" else ""))
    show audioLabel f = _
    rw [audioLabel]
    have habr : abrOf f = 0 := by simp [abrOf, ha]
    rw [habr]
    have hx1 : (" (" : String) = " " ++ "(" := rfl
    have hx2 : ("(0kbps - " : String) = "(" ++ "0" ++ "kbps - " := rfl
    have hx3 : toString (0 : Int) = "0" := rfl
    apply String.ext
    simp [hx1, hx2, hx3]

theorem c5_amended_label_fragments_witness :
    (mkFormatOption sampleVideoNoRates).label = String.intercalate " - "
        (heightPartV sampleVideoNoRates :: (extPartsV sampleVideoNoRates
          ++ fpsPartsV sampleVideoNoRates
          ++ muxPartV sampleVideoNoRates :: notePartsV sampleVideoNoRates))
    ∧ (mkFormatOption sampleVideoNoRates).label = String.intercalate " - "
        (heightPartV sampleVideoNoRates :: (extPartsV sampleVideoNoRates
          ++ tbrPartsV sampleVideoNoRates
          ++ muxPartV sampleVideoNoRates :: notePartsV sampleVideoNoRates))
    ∧ "(0kbps - ".data <:+: (mkAudioOption sampleVideoNoRates).label.data :=
  ⟨(c5_amended_label_fragments sampleVideoNoRates).1 (by decide),
   (c5_amended_label_fragments sampleVideoNoRates).2.1 (Or.inl (by decide)),
   (c5_amended_label_fragments sampleVideoNoRates).2.2.2 (by decide)⟩

theorem chunkLoopSp_status (c : Option Nat) (total : Nat) :
    ∀ (chunks : List Nat) (idx dl : Nat) (u : Update),
      u ∈ (chunkLoopSp c total idx dl chunks).1 → u.status = .downloading := by
  intro chunks
  induction chunks with
  | nil => intro idx dl u h; simp [chunkLoopSp] at h
  | cons ch rest ih =>
      intro idx dl u h
      rw [chunkLoopSp] at h
      by_cases hc : cancelledAt c idx = true
      · rw [if_pos hc] at h; simp at h
      · rw [if_neg hc] at h
        by_cases hch : ch ≠ 0
        · rw [if_pos hch] at h
          by_cases ht : total = 0
          · rw [if_pos ht] at h; simp at h
          · rw [if_neg ht] at h
            rcases List.mem_cons.mp h with rfl | h'
            · rfl
            · exact ih (idx + 1) (dl + ch) u h'
        · rw [if_neg hch] at h
          exact ih (idx + 1) dl u h

theorem runHooks_status (c : Option Nat) (m : String) :
    ∀ (evs : List HookEvent) (idx : Nat) (u : Update),
      u ∈ (runHooks c m idx evs).1 → u.status = .downloading := by
  intro evs
  induction evs with
  | nil => intro idx u h; simp [runHooks] at h
  | cons ev rest ih =>
      intro idx u h
      rw [runHooks] at h
      by_cases hc : cancelledAt c idx = true
      · rw [if_pos hc] at h; simp at h
      · rw [if_neg hc] at h
        rcases List.mem_append.mp h with h' | h'
        · by_cases hd : ev.isDownloading = true
          · rw [if_pos hd] at h'
            rcases List.mem_singleton.mp h' with rfl
            rfl
          · rw [if_neg hd] at h'; simp at h'
        · exact ih (idx + 1) u h'

theorem spFetch_status (e : SEnv) (u : Update) (h : u ∈ (spFetch e).1) :
    u.status = .starting := by
  rw [spFetch] at h
  rcases List.mem_singleton.mp h with rfl; rfl

theorem spResolve_status (e : SEnv) (u : Update) (h : u ∈ (spResolve e).1) :
    u.status = .starting := by
  rw [spResolve] at h
  split at h
  · split at h
    · simp at h
    · exact spFetch_status e u h
  · exact spFetch_status e u h

theorem spotifyCore_shape (e : SEnv) :
    ∃ l2, (spotifyCore e).1 = spProcessingUpd :: ((spResolve e).1 ++ l2)
      ∧ ∀ u ∈ l2, u.status = .downloading := by
  have hdown1 : ∀ s, ∀ u ∈ [spDownloadingUpd s], u.status = Status.downloading := by
    intro s u hu
    rcases List.mem_singleton.mp hu with rfl; rfl
  have hchunks : ∀ s total, ∀ u ∈ spDownloadingUpd s :: (chunkLoopSp e.cancelAt total 1 0 e.chunks).1,
      u.status = Status.downloading := by
    intro s total u hu
    rcases List.mem_cons.mp hu with rfl | hu'
    · rfl
    · exact chunkLoopSp_status e.cancelAt total e.chunks 1 0 u hu'
  simp only [spotifyCore]
  split
  · exact ⟨[], by simp, by simp⟩
  · split
    · exact ⟨[], by simp, by simp⟩
    · split
      · exact ⟨[], by simp, by simp⟩
      · split
        · exact ⟨_, rfl, hdown1 _⟩
        · split
          · exact ⟨_, rfl, hdown1 _⟩
          · split
            · exact ⟨_, rfl, hchunks _ _⟩
            · exact ⟨_, rfl, hchunks _ _⟩

theorem ytCore_shape (model : String) (fid aid : Option String) (e : YEnv) :
    ∃ l2, (ytCore model fid aid e).1 = ytMetaUpd (buildReqFormat fid aid).2 :: l2
      ∧ ∀ u ∈ l2, u.status = .downloading := by
  have hdown : ∀ f, ∀ u ∈ ytStartUpd f
        :: (runHooks e.cancelAt (buildReqFormat fid aid).2 1 e.hookEvents).1,
      u.status = Status.downloading := by
    intro f u hu
    rcases List.mem_cons.mp hu with rfl | hu'
    · rfl
    · exact runHooks_status e.cancelAt _ e.hookEvents 1 u hu'
  simp only [ytCore]
  split
  · exact ⟨[], by simp, by simp⟩
  · split
    · exact ⟨[], by simp, by simp⟩
    · split
      · exact ⟨_, rfl, hdown _⟩
      · split
        · exact ⟨_, rfl, hdown _⟩
        · exact ⟨_, rfl, hdown _⟩

theorem core_split (model : String) (fid aid : Option String) (env : CoreEnv) :
    ∃ l1 l2, (singleDownloaderCore model fid aid env).1 = l1 ++ l2
      ∧ (∀ u ∈ l1, u.status = .starting) ∧ (∀ u ∈ l2, u.status = .downloading) := by
  rw [singleDownloaderCore]
  by_cases hm : model = "spotify"
  · rw [if_pos hm]
    obtain ⟨l2, hl2, hall⟩ := spotifyCore_shape env.sp
    refine ⟨spProcessingUpd :: (spResolve env.sp).1, l2, by simpa using hl2, ?_, hall⟩
    intro u hu
    rcases List.mem_cons.mp hu with rfl | hu'
    · rfl
    · exact spResolve_status env.sp u hu'
  · rw [if_neg hm]
    obtain ⟨l2, hl2, hall⟩ := ytCore_shape model fid aid env.yt
    refine ⟨[ytMetaUpd (buildReqFormat fid aid).2], l2, by simpa using hl2, ?_, hall⟩
    intro u hu
    rcases List.mem_singleton.mp hu with rfl; rfl

theorem workerSingle_eq (model : String) (fid aid : Option String)
    (env : CoreEnv) (menv : MoveEnv) :
    ∃ t : Update,
      workerSingle model fid aid env menv = (singleDownloaderCore model fid aid env).1 ++ [t]
      ∧ ((t.status = .finished ∧ t.progress = some 100 ∧ t.message = some "Ready"
            ∧ ∃ u, t.download_url = some u)
         ∨ (t.status = .error ∧ ∃ m, t.message = some m)) := by
  simp only [workerSingle]
  split
  · exact ⟨_, rfl, .inr ⟨rfl, _, rfl⟩⟩
  · split
    · split
      · split
        · exact ⟨_, rfl, .inr ⟨rfl, _, rfl⟩⟩
        · exact ⟨_, rfl, .inl ⟨rfl, rfl, rfl, _, rfl⟩⟩
      · exact ⟨_, rfl, .inr ⟨rfl, _, rfl⟩⟩
    · exact ⟨_, rfl, .inr ⟨rfl, _, rfl⟩⟩

theorem pairwise_rank_const (s : List Status) (k : Nat) (h : ∀ x ∈ s, statusRank x = k) :
    List.Pairwise (fun a b => statusRank a ≤ statusRank b) s := by
  induction s with
  | nil => exact List.Pairwise.nil
  | cons x xs ih =>
      refine List.pairwise_cons.mpr ⟨?_, ih fun y hy => h y (List.mem_cons_of_mem x hy)⟩
      intro y hy
      rw [h x (List.mem_cons_self x xs), h y (List.mem_cons_of_mem x hy)]

theorem pairwise_statuses (s1 s2 : List Status) (t : Status)
    (h1 : ∀ x ∈ s1, x = .starting) (h2 : ∀ x ∈ s2, x = .downloading)
    (ht : statusRank t = 2) :
    List.Pairwise (fun a b => statusRank a ≤ statusRank b)
      (Status.starting :: (s1 ++ s2 ++ [t])) := by
  have r1 : ∀ x ∈ s1, statusRank x = 0 := fun x hx => by rw [h1 x hx]; rfl
  have r2 : ∀ x ∈ s2, statusRank x = 1 := fun x hx => by rw [h2 x hx]; rfl
  refine List.pairwise_cons.mpr ⟨fun y _ => Nat.zero_le _, ?_⟩
  refine List.pairwise_append.mpr ⟨List.pairwise_append.mpr ⟨?_, ?_, ?_⟩, ?_, ?_⟩
  · exact pairwise_rank_const s1 0 r1
  · exact pairwise_rank_const s2 1 r2
  · intro a ha b hb
    rw [r1 a ha, r2 b hb]
    exact Nat.zero_le 1 |>.trans (Nat.le_refl 1)
  · exact List.pairwise_singleton _ _
  · intro a ha b hb
    rcases List.mem_singleton.mp hb with rfl
    rw [ht]
    rcases List.mem_append.mp ha with ha | ha
    · rw [r1 a ha]; exact Nat.zero_le 2
    · rw [r2 a ha]; omega

/-- C1: submission creates the registry entry in state starting with progress 0, and
every worker run appends exactly one terminal update, last in the trace, leaving
the task in exactly one of the finished state (progress 100, download link set) or
the error state (message set), with the status ranks of the whole observed history
never decreasing — no transition back to starting or downloading. -/
theorem c1_task_lifecycle (model : String) (fid aid : Option String)
    (env : CoreEnv) (menv : MoveEnv) :
    (initTaskData model).status = .starting
    ∧ (initTaskData model).progress = some 0
    ∧ ((workerSingle model fid aid env menv).filter isTerminalUpd).length = 1
    ∧ (∃ t, (workerSingle model fid aid env menv).getLast? = some t ∧ isTerminalUpd t = true)
    ∧ (((finalTaskData model fid aid env menv).status = .finished
          ∧ (finalTaskData model fid aid env menv).progress = some 100
          ∧ (finalTaskData model fid aid env menv).download_url.isSome = true
          ∧ (finalTaskData model fid aid env menv).status ≠ .error)
       ∨ ((finalTaskData model fid aid env menv).status = .error
          ∧ (finalTaskData model fid aid env menv).message.isSome = true
          ∧ (finalTaskData model fid aid env menv).status ≠ .finished))
    ∧ List.Pairwise (fun a b => statusRank a ≤ statusRank b)
        (Status.starting :: (workerSingle model fid aid env menv).map (·.status)) := by
  obtain ⟨t, htr, hterm⟩ := workerSingle_eq model fid aid env menv
  obtain ⟨l1, l2, hsplit, h1, h2⟩ := core_split model fid aid env
  have hcore_nonterm : ∀ u ∈ (singleDownloaderCore model fid aid env).1,
      isTerminalUpd u = false := by
    intro u hu
    rw [hsplit] at hu
    rcases List.mem_append.mp hu with hu | hu
    · simp [isTerminalUpd, h1 u hu]
    · simp [isTerminalUpd, h2 u hu]
  have hterm_true : isTerminalUpd t = true := by
    rcases hterm with ⟨h, _⟩ | ⟨h, _⟩ <;> simp [isTerminalUpd, h]
  have hfilter : (singleDownloaderCore model fid aid env).1.filter isTerminalUpd = [] := by
    rw [List.filter_eq_nil_iff]
    intro u hu
    simp [hcore_nonterm u hu]
  refine ⟨rfl, rfl, ?_, ?_, ?_, ?_⟩
  · rw [htr, List.filter_append, hfilter]
    simp [hterm_true]
  · rw [htr]
    exact ⟨t, by simp, hterm_true⟩
  · have hfinal : finalTaskData model fid aid env menv
        = applyUpdate ((singleDownloaderCore model fid aid env).1.foldl applyUpdate
            (initTaskData model)) t := by
      rw [finalTaskData, htr, List.foldl_append]
      rfl
    rcases hterm with ⟨hs, hp, _, u, hu⟩ | ⟨hs, m, hm⟩
    · left
      rw [hfinal]
      refine ⟨by simp [applyUpdate, hs], by simp [applyUpdate, hp], ?_, by simp [applyUpdate, hs]⟩
      simp [applyUpdate, hu]
    · right
      rw [hfinal]
      exact ⟨by simp [applyUpdate, hs], by simp [applyUpdate, hm], by simp [applyUpdate, hs]⟩
  · rw [htr, hsplit, List.map_append, List.map_append]
    have hrank : statusRank t.status = 2 := by
      rcases hterm with ⟨hs, _⟩ | ⟨hs, _⟩ <;> rw [hs] <;> rfl
    have hmap := pairwise_statuses (l1.map (·.status)) (l2.map (·.status)) t.status
      (fun x hx => by obtain ⟨u, hu, rfl⟩ := List.mem_map.mp hx; exact h1 u hu)
      (fun x hx => by obtain ⟨u, hu, rfl⟩ := List.mem_map.mp hx; exact h2 u hu)
      hrank
    simpa using hmap

theorem runHooks_cancel (m : String) :
    ∀ (evs : List HookEvent) (idx n : Nat), idx ≤ n → n < idx + evs.length →
      (runHooks (some n) m idx evs).2 = .error "Cancelled" := by
  intro evs
  induction evs with
  | nil => intro idx n hle hlt; simp at hlt; omega
  | cons ev rest ih =>
      intro idx n hle hlt
      rw [runHooks]
      by_cases hc : cancelledAt (some n) idx = true
      · rw [if_pos hc]
      · rw [if_neg hc]
        have hgt : idx < n := by
          simp only [cancelledAt, decide_eq_true_eq] at hc
          omega
        exact ih (idx + 1) n hgt (by simpa [Nat.add_assoc, Nat.add_comm 1] using hlt)

theorem chunkLoopSp_cancel (total : Nat) (htot : 0 < total) :
    ∀ (chunks : List Nat) (idx dl n : Nat), idx ≤ n → n < idx + chunks.length →
      (chunkLoopSp (some n) total idx dl chunks).2 = .error "Cancelled" := by
  intro chunks
  induction chunks with
  | nil => intro idx dl n hle hlt; simp at hlt; omega
  | cons c rest ih =>
      intro idx dl n hle hlt
      rw [chunkLoopSp]
      by_cases hc : cancelledAt (some n) idx = true
      · rw [if_pos hc]
      · rw [if_neg hc]
        have hgt : idx < n := by
          simp only [cancelledAt, decide_eq_true_eq] at hc
          omega
        have hrec := ih (idx + 1) (dl + c) n hgt
          (by simpa [Nat.add_assoc, Nat.add_comm 1] using hlt)
        have hrec0 := ih (idx + 1) dl n hgt
          (by simpa [Nat.add_assoc, Nat.add_comm 1] using hlt)
        by_cases hch : c ≠ 0
        · rw [if_pos hch, if_neg (Nat.pos_iff_ne_zero.mp htot)]
          exact hrec
        · rw [if_neg hch]
          exact hrec0

theorem spotifyCore_cancel (e : SEnv) (h : spCancelReachedB e = true) :
    (spotifyCore e).2 = .error "Spotify API Error: Cancelled" := by
  rw [spCancelReachedB, Bool.and_eq_true] at h
  obtain ⟨hob, hrest⟩ := h
  rw [spObtainedB] at hob
  simp only [spotifyCore]
  split
  · next msg heq => rw [heq] at hob; simp at hob
  · next rawLink t0 a0 heq =>
      rw [heq] at hob
      have hob' : (truthyLink rawLink).isSome = true := hob
      split
      · next htl => rw [htl] at hob'; simp at hob'
      · next l htl =>
          split
          · rfl
          · next hcan =>
              rcases hca : e.cancelAt with _ | n
              · rw [hca] at hrest; simp at hrest
              · rw [hca] at hrest
                rw [hca] at hcan
                rcases n with _ | k
                · exact absurd rfl hcan
                · obtain ⟨hdl, hclen⟩ : e.downloadReqError = none ∧
                      (match e.contentLength with
                       | some t => decide (0 < t) && decide (k + 1 ≤ e.chunks.length)
                       | none => false) = true := by
                    simpa using hrest
                  split
                  · next msg heq2 => rw [hdl] at heq2; exact absurd heq2 (by simp)
                  · next heq2 =>
                      split
                      · next heq3 => rw [heq3] at hclen; simp at hclen
                      · next total heq3 =>
                          rw [heq3] at hclen
                          obtain ⟨htot', hlen'⟩ : 0 < total ∧ k + 1 ≤ e.chunks.length := by
                            simpa using hclen
                          have hloopC := chunkLoopSp_cancel total htot' e.chunks 1 0 (k + 1)
                            (by omega) (by omega)
                          split
                          · next msg heq4 =>
                              rw [hloopC] at heq4
                              injection heq4 with hm
                              rw [← hm]
                              rfl
                          · next heq4 => rw [hloopC] at heq4; simp at heq4

theorem ytCore_cancel (model : String) (fid aid : Option String) (e : YEnv)
    (h : ytCancelReachedB e = true) :
    (ytCore model fid aid e).2 = .error "Cancelled" := by
  rw [ytCancelReachedB, Bool.and_eq_true] at h
  obtain ⟨hmeta, hcanc⟩ := h
  simp only [ytCore]
  split
  · next msg heq => rw [heq] at hmeta; simp at hmeta
  · next info heq =>
      split
      · rfl
      · next hcan =>
          rcases hca : e.cancelAt with _ | n
          · rw [hca] at hcanc; simp at hcanc
          · rw [hca] at hcanc
            rw [hca] at hcan
            have hlen : n ≤ e.hookEvents.length := by simpa using hcanc
            rcases n with _ | k
            · exact absurd rfl hcan
            · have hign := runHooks_cancel (buildReqFormat fid aid).2 e.hookEvents 1 (k + 1)
                (by omega) (by omega)
              split
              · next msg heq2 =>
                  rw [hign] at heq2
                  injection heq2 with hm
                  rw [← hm]
              · next heq2 => rw [hign] at heq2; simp at heq2

theorem workerSingle_of_core_error (model : String) (fid aid : Option String)
    (env : CoreEnv) (menv : MoveEnv) (msg : String)
    (h : (singleDownloaderCore model fid aid env).2 = .error msg) :
    workerSingle model fid aid env menv
      = (singleDownloaderCore model fid aid env).1 ++ [errorUpd msg] := by
  simp only [workerSingle]
  split
  · next e heq =>
      rw [heq] at h
      injection h with h2
      rw [h2]
  · next p heq => rw [heq] at h; simp at h

theorem finalTaskData_error (model : String) (fid aid : Option String)
    (env : CoreEnv) (menv : MoveEnv) (msg : String)
    (h : (singleDownloaderCore model fid aid env).2 = .error msg) :
    (finalTaskData model fid aid env menv).status = .error
    ∧ (finalTaskData model fid aid env menv).message = some msg := by
  rw [finalTaskData, workerSingle_of_core_error model fid aid env menv msg h,
    List.foldl_append]
  constructor <;> simp [applyUpdate, errorUpd]

/-- C7: whenever the cancellation flag is set before a poll point the worker reaches
(the post-metadata check or a hook invocation on the general path, the pre-download
check or a chunk iteration on the music-lookup path), the task ends in the terminal
error state with a message containing Cancelled, regardless of accumulated progress. -/
theorem c7_cancellation_error (model : String) (fid aid : Option String)
    (env : CoreEnv) (menv : MoveEnv)
    (h : cancelPollReachedB model env = true) :
    (finalTaskData model fid aid env menv).status = .error
    ∧ ∃ m, (finalTaskData model fid aid env menv).message = some m
        ∧ "Cancelled".data <:+: m.data := by
  rw [cancelPollReachedB] at h
  by_cases hm : model = "spotify"
  · rw [if_pos hm] at h
    have hcore : (singleDownloaderCore model fid aid env).2
        = .error "Spotify API Error: Cancelled" := by
      rw [singleDownloaderCore, if_pos hm]
      exact spotifyCore_cancel env.sp h
    obtain ⟨hs, hmsg⟩ := finalTaskData_error model fid aid env menv _ hcore
    exact ⟨hs, _, hmsg, by decide⟩
  · rw [if_neg hm] at h
    have hcore : (singleDownloaderCore model fid aid env).2 = .error "Cancelled" := by
      rw [singleDownloaderCore, if_neg hm]
      exact ytCore_cancel model fid aid env.yt h
    obtain ⟨hs, hmsg⟩ := finalTaskData_error model fid aid env menv _ hcore
    exact ⟨hs, _, hmsg, by decide⟩

theorem c7_cancellation_error_witness :
    (finalTaskData "generic" none none c7EnvW {}).status = .error
    ∧ ∃ m, (finalTaskData "generic" none none c7EnvW {}).message = some m
        ∧ "Cancelled".data <:+: m.data :=
  c7_cancellation_error "generic" none none c7EnvW {} (by decide)

end RailwayBot
